import Mathlib

/-!
Verification of the business-day calendar core of the jira-analysis repository
(src/date.go: DateOf, NextDate, BusinessDaysUntil).

Embedding notes.
The Go code works with time.Time values: an absolute instant (nanoseconds since
the Unix epoch) together with a Location.  The timestamps this repository feeds
into the calendar core are parsed with fixed numeric UTC offsets (layout
"2006-01-02T15:04:05.999-0700"), so a Location is modelled as a fixed UTC offset
in seconds, and a Time as the pair of its absolute nanosecond instant and its
Location.

A calendar date in some location is represented canonically by its day number
(days since 1970-01-01 in local time); the year/month/day decomposition used by
Go in t.Date() and time.Date(y, m, d, ...) is the standard civil-calendar
bijection between day numbers and (y, m, d) triples, provided below as
daysFromCivil / civilFromDays and used for the year/month/day accessors.
DateOf therefore truncates the local clock to its day number and rebuilds the
instant at 06:00 local time, exactly as time.Date(y, m, d, 6, 0, 0, 0, loc)
does for a fixed-offset location.
-/

namespace JiraAnalysis

/-- Nanoseconds per second (Go durations are in nanoseconds). -/
def nsPerSec : Int := 1000000000

/-- Nanoseconds per minute. -/
def nsPerMin : Int := 60 * nsPerSec

/-- Nanoseconds per hour. -/
def nsPerHour : Int := 3600 * nsPerSec

/-- Nanoseconds per day. -/
def nsPerDay : Int := 86400 * nsPerSec

/-- A Go time.Location, modelled as a fixed UTC offset in seconds
(the repository feeds timestamps with fixed numeric offsets into the core). -/
structure Location where
  offsetSec : Int
deriving DecidableEq

/-- A Go time.Time: an absolute instant (nanoseconds since the Unix epoch)
together with its Location. -/
structure Time where
  unixNano : Int
  loc : Location
deriving DecidableEq

/-- The Date type of src/date.go wraps time.Time. -/
abbrev Date := Time

/-- The local wall clock of an instant, in nanoseconds since the epoch of the
local calendar: the absolute instant shifted by the location offset. -/
def localClock (t : Time) : Int := t.unixNano + t.loc.offsetSec * nsPerSec

/-- The local calendar date of an instant, as days since 1970-01-01
(what Go's t.Date() denotes, with (y, m, d) encoded by its day number). -/
def localDay (t : Time) : Int := localClock t / nsPerDay

/-- Go's t.Weekday(): day of week of the local calendar date,
0 = Sunday, ..., 6 = Saturday (1970-01-01 was a Thursday = 4). -/
def weekday (t : Time) : Int := (localDay t + 4) % 7

/-- Day number (days since 1970-01-01) of a civil date (y, m, d); the standard
civil-calendar conversion Go performs inside time.Date. -/
def daysFromCivil (y m d : Int) : Int :=
  let yy := if m ≤ 2 then y - 1 else y
  let era := yy / 400
  let yoe := yy - era * 400
  let doy := (153 * (m + (if m > 2 then -3 else 9)) + 2) / 5 + d - 1
  let doe := yoe * 365 + yoe / 4 - yoe / 100 + doy
  era * 146097 + doe - 719468

/-- Civil date (y, m, d) of a day number; the standard civil-calendar
conversion Go performs inside t.Date(). -/
def civilFromDays (z : Int) : Int × Int × Int :=
  let zz := z + 719468
  let era := zz / 146097
  let doe := zz - era * 146097
  let yoe := (doe - doe / 1460 + doe / 36524 - doe / 146096) / 365
  let y := yoe + era * 400
  let doy := doe - (365 * yoe + yoe / 4 - yoe / 100)
  let mp := (5 * doy + 2) / 153
  let d := doy - (153 * mp + 2) / 5 + 1
  let m := mp + (if mp < 10 then 3 else -9)
  (if m ≤ 2 then y + 1 else y, m, d)

/-- Local calendar year of an instant (first component of Go's t.Date()). -/
def yearOf (t : Time) : Int := (civilFromDays (localDay t)).1

/-- Local calendar month of an instant (second component of Go's t.Date()). -/
def monthOf (t : Time) : Int := (civilFromDays (localDay t)).2.1

/-- Local calendar day-of-month of an instant (third component of Go's t.Date()). -/
def dayOf (t : Time) : Int := (civilFromDays (localDay t)).2.2

/-- Local hour of an instant (Go's t.Hour()). -/
def hourOf (t : Time) : Int := localClock t % nsPerDay / nsPerHour

/-- Local minute of an instant (Go's t.Minute()). -/
def minuteOf (t : Time) : Int := localClock t % nsPerHour / nsPerMin

/-- Local second of an instant (Go's t.Second()). -/
def secondOf (t : Time) : Int := localClock t % nsPerMin / nsPerSec

/-- Local subsecond (nanoseconds) of an instant (Go's t.Nanosecond()). -/
def nanosecondOf (t : Time) : Int := localClock t % nsPerSec

/-- Go's time.Date(y, m, d, hh, mi, ss, ns, loc) for a fixed-offset location:
the absolute instant whose local wall clock reads the given civil time. -/
def timeDate (y m d hh mi ss ns : Int) (loc : Location) : Time :=
  ⟨(daysFromCivil y m d * 86400 + hh * 3600 + mi * 60 + ss - loc.offsetSec) * nsPerSec + ns,
   loc⟩

/-- src/date.go DateOf: take the local calendar date of t and rebuild the
instant at 06:00 local time in t's location
(time.Date(y, m, d, 6, 0, 0, 0, l) with (y, m, d) = t.Date(), l = t.Location()). -/
def DateOf (t : Time) : Date :=
  ⟨localDay t * nsPerDay + 6 * nsPerHour - t.loc.offsetSec * nsPerSec, t.loc⟩

/-- src/date.go NextDate: add 25 hours to the underlying instant, then
re-normalize with DateOf. -/
def NextDate (d : Date) : Date :=
  DateOf ⟨d.unixNano + 25 * nsPerHour, d.loc⟩

/-- The body of the loop in BusinessDaysUntil: advance the cursor with
NextDate, then skip again if it landed on a Saturday, then skip again if it
(now) lands on a Sunday. -/
def advance (d : Date) : Date :=
  let d1 := NextDate d
  let d2 := if weekday d1 = 6 then NextDate d1 else d1
  if weekday d2 = 0 then NextDate d2 else d2

/-- The normalized date of a given location sitting on a given calendar day
number: the shape of every DateOf output. -/
def mkDate (loc : Location) (day : Int) : Date :=
  ⟨day * nsPerDay + 6 * nsPerHour - loc.offsetSec * nsPerSec, loc⟩

/-- A Date is normalized (a CivilDate) when it is a fixed point of DateOf. -/
def isCivil (d : Date) : Prop := DateOf d = d

instance (d : Date) : Decidable (isCivil d) := by
  unfold isCivil
  infer_instance

/-- The aligned until instant computed by BusinessDaysUntil:
until.In(date.Location()) keeps the absolute instant, and then
Add((untilOffset - startOffset) * time.Second) shifts it by the offset
difference of the two inputs. -/
def alignedUntil (date u : Date) : Int :=
  u.unixNano + (u.loc.offsetSec - date.loc.offsetSec) * nsPerSec

theorem advance_unixNano_lt (d : Date) : d.unixNano < (advance d).unixNano := by
  have h1 : ∀ e : Date, e.unixNano < (NextDate e).unixNano := by
    intro e
    show e.unixNano < (DateOf ⟨e.unixNano + 25 * nsPerHour, e.loc⟩).unixNano
    simp only [DateOf, localDay, localClock, nsPerDay, nsPerHour, nsPerSec]
    omega
  have h2 : ∀ e : Date, e.unixNano ≤ (if weekday e = 6 then NextDate e else e).unixNano := by
    intro e
    by_cases h : weekday e = 6 <;> simp [h, le_of_lt (h1 e)]
  have h3 : ∀ e : Date, e.unixNano ≤ (if weekday e = 0 then NextDate e else e).unixNano := by
    intro e
    by_cases h : weekday e = 0 <;> simp [h, le_of_lt (h1 e)]
  calc d.unixNano < (NextDate d).unixNano := h1 d
    _ ≤ (if weekday (NextDate d) = 6 then NextDate (NextDate d) else NextDate d).unixNano :=
      h2 (NextDate d)
    _ ≤ (advance d).unixNano := h3 _

/-- src/date.go BusinessDaysUntil loop: while the cursor's instant is before
the aligned until instant, count one day and advance the cursor past weekends. -/
def businessDaysLoop (untilNano : Int) (d : Date) : Int :=
  if d.unixNano < untilNano then
    businessDaysLoop untilNano (advance d) + 1
  else 0
termination_by (untilNano - d.unixNano).toNat
decreasing_by
  have := advance_unixNano_lt d
  omega

/-- src/date.go BusinessDaysUntil: align the until instant for the offset
difference of the two dates, then run the counting loop from date. -/
def BusinessDaysUntil (date u : Date) : Int :=
  businessDaysLoop (alignedUntil date u) date

/-- The cursor advance of the BusinessDaysUntil loop expressed on calendar day
numbers: one day forward, one more if that lands on a Saturday, one more if the
result lands on a Sunday. -/
def advanceDay (D : Int) : Int :=
  let d1 := D + 1
  let d2 := if (d1 + 4) % 7 = 6 then d1 + 1 else d1
  if (d2 + 4) % 7 = 0 then d2 + 1 else d2

theorem localDay_mkDate (A : Location) (D : Int) : localDay (mkDate A D) = D := by
  simp only [localDay, localClock, mkDate, nsPerDay, nsPerHour, nsPerSec]
  omega

theorem weekday_mkDate (A : Location) (D : Int) : weekday (mkDate A D) = (D + 4) % 7 := by
  simp only [weekday, localDay_mkDate]

theorem loc_mkDate (A : Location) (D : Int) : (mkDate A D).loc = A := rfl

theorem DateOf_eq_mkDate (t : Time) : DateOf t = mkDate t.loc (localDay t) := rfl

theorem localDay_DateOf (t : Time) : localDay (DateOf t) = localDay t := by
  rw [DateOf_eq_mkDate, localDay_mkDate]

theorem isCivil_mkDate (A : Location) (D : Int) : isCivil (mkDate A D) := by
  show DateOf (mkDate A D) = mkDate A D
  rw [DateOf_eq_mkDate, localDay_mkDate, loc_mkDate]

theorem isCivil_iff (d : Date) : isCivil d ↔ d = mkDate d.loc (localDay d) := by
  constructor
  · intro h
    conv_lhs => rw [← h, DateOf_eq_mkDate]
  · intro h
    rw [h]
    exact isCivil_mkDate _ _

theorem NextDate_mkDate (A : Location) (D : Int) :
    NextDate (mkDate A D) = mkDate A (D + 1) := by
  show DateOf ⟨(mkDate A D).unixNano + 25 * nsPerHour, (mkDate A D).loc⟩ = mkDate A (D + 1)
  rw [DateOf_eq_mkDate]
  show mkDate A (localDay _) = _
  congr 1
  simp only [localDay, localClock, mkDate, nsPerDay, nsPerHour, nsPerSec]
  omega

theorem advance_mkDate (A : Location) (D : Int) :
    advance (mkDate A D) = mkDate A (advanceDay D) := by
  simp only [advance, advanceDay, NextDate_mkDate, weekday_mkDate]
  by_cases h6 : (D + 1 + 4) % 7 = 6
  · simp only [h6, if_true, NextDate_mkDate, weekday_mkDate]
    by_cases h0 : (D + 1 + 1 + 4) % 7 = 0
    · simp only [h0, if_true, NextDate_mkDate]
    · simp only [h0, if_false]
  · simp only [h6, if_false, weekday_mkDate]
    by_cases h0 : (D + 1 + 4) % 7 = 0
    · simp only [h0, if_true, NextDate_mkDate]
    · simp only [h0, if_false]

theorem advanceDay_lt (D : Int) : D < advanceDay D := by
  simp only [advanceDay]
  split_ifs <;> omega

theorem advanceDay_le (D : Int) : advanceDay D ≤ D + 3 := by
  simp only [advanceDay]
  split_ifs <;> omega

/-- Closed description of the cursor advance on day numbers, by the weekday of
the starting day: a Friday jumps to Monday, a Saturday to Monday, anything else
moves one day. -/
theorem advanceDay_eq (D : Int) :
    advanceDay D =
      if (D + 4) % 7 = 5 then D + 3 else if (D + 4) % 7 = 6 then D + 2 else D + 1 := by
  simp only [advanceDay]
  split_ifs <;> omega

/-- The BusinessDaysUntil counting loop expressed on calendar day numbers. -/
def dayCount (D T : Int) : Int :=
  if D < T then dayCount (advanceDay D) T + 1 else 0
termination_by (T - D).toNat
decreasing_by
  have := advanceDay_lt D
  omega

theorem dayCount_step (D T : Int) (h : D < T) :
    dayCount D T = dayCount (advanceDay D) T + 1 := by
  rw [dayCount.eq_def]
  simp [h]

theorem dayCount_stop (D T : Int) (h : ¬ D < T) : dayCount D T = 0 := by
  rw [dayCount.eq_def]
  simp [h]

theorem businessDaysLoop_step (u : Int) (d : Date) (h : d.unixNano < u) :
    businessDaysLoop u d = businessDaysLoop u (advance d) + 1 := by
  rw [businessDaysLoop.eq_def]
  simp [h]

theorem businessDaysLoop_stop (u : Int) (d : Date) (h : ¬ d.unixNano < u) :
    businessDaysLoop u d = 0 := by
  rw [businessDaysLoop.eq_def]
  simp [h]

theorem mkDate_lt_iff (A : Location) (D T : Int) :
    (mkDate A D).unixNano < T * nsPerDay + 6 * nsPerHour - A.offsetSec * nsPerSec ↔ D < T := by
  simp only [mkDate, nsPerDay, nsPerHour, nsPerSec]
  omega

theorem businessDaysLoop_eq_dayCount_aux (A : Location) :
    ∀ n : ℕ, ∀ D T : Int, (T - D).toNat ≤ n →
      businessDaysLoop (T * nsPerDay + 6 * nsPerHour - A.offsetSec * nsPerSec) (mkDate A D)
        = dayCount D T := by
  intro n
  induction n with
  | zero =>
    intro D T hn
    have hDT : ¬ D < T := by omega
    rw [businessDaysLoop_stop _ _ (by rw [mkDate_lt_iff]; exact hDT), dayCount_stop _ _ hDT]
  | succ n ih =>
    intro D T hn
    by_cases hDT : D < T
    · rw [businessDaysLoop_step _ _ ((mkDate_lt_iff A D T).2 hDT), dayCount_step _ _ hDT,
        advance_mkDate]
      have hlt := advanceDay_lt D
      rw [ih (advanceDay D) T (by omega)]
    · rw [businessDaysLoop_stop _ _ (by rw [mkDate_lt_iff]; exact hDT), dayCount_stop _ _ hDT]

theorem businessDaysLoop_eq_dayCount (A : Location) (D T : Int) :
    businessDaysLoop (T * nsPerDay + 6 * nsPerHour - A.offsetSec * nsPerSec) (mkDate A D)
      = dayCount D T :=
  businessDaysLoop_eq_dayCount_aux A (T - D).toNat D T le_rfl

theorem businessDaysLoop_nonneg_aux :
    ∀ n : ℕ, ∀ (u : Int) (d : Date), (u - d.unixNano).toNat ≤ n →
      0 ≤ businessDaysLoop u d := by
  intro n
  induction n with
  | zero =>
    intro u d hn
    have h : ¬ d.unixNano < u := by omega
    rw [businessDaysLoop_stop _ _ h]
  | succ n ih =>
    intro u d hn
    by_cases h : d.unixNano < u
    · rw [businessDaysLoop_step _ _ h]
      have hlt := advance_unixNano_lt d
      have := ih u (advance d) (by omega)
      omega
    · rw [businessDaysLoop_stop _ _ h]

theorem businessDaysLoop_nonneg (u : Int) (d : Date) : 0 ≤ businessDaysLoop u d :=
  businessDaysLoop_nonneg_aux (u - d.unixNano).toNat u d le_rfl

theorem dayCount_nonneg_aux :
    ∀ n : ℕ, ∀ D T : Int, (T - D).toNat ≤ n → 0 ≤ dayCount D T := by
  intro n
  induction n with
  | zero =>
    intro D T hn
    rw [dayCount_stop _ _ (by omega)]
  | succ n ih =>
    intro D T hn
    by_cases h : D < T
    · rw [dayCount_step _ _ h]
      have hlt := advanceDay_lt D
      have := ih (advanceDay D) T (by omega)
      omega
    · rw [dayCount_stop _ _ h]

theorem dayCount_nonneg (D T : Int) : 0 ≤ dayCount D T :=
  dayCount_nonneg_aux (T - D).toNat D T le_rfl

theorem dayCount_mono_aux :
    ∀ n : ℕ, ∀ D T1 T2 : Int, (T2 - D).toNat ≤ n → T1 ≤ T2 →
      dayCount D T1 ≤ dayCount D T2 := by
  intro n
  induction n with
  | zero =>
    intro D T1 T2 hn h12
    have h1 : ¬ D < T1 := by omega
    rw [dayCount_stop _ _ h1]
    exact dayCount_nonneg D T2
  | succ n ih =>
    intro D T1 T2 hn h12
    by_cases h1 : D < T1
    · have h2 : D < T2 := by omega
      rw [dayCount_step _ _ h1, dayCount_step _ _ h2]
      have hlt := advanceDay_lt D
      have := ih (advanceDay D) T1 T2 (by omega) h12
      omega
    · rw [dayCount_stop _ _ h1]
      exact dayCount_nonneg D T2

theorem dayCount_mono (D T1 T2 : Int) (h : T1 ≤ T2) : dayCount D T1 ≤ dayCount D T2 :=
  dayCount_mono_aux (T2 - D).toNat D T1 T2 le_rfl h

/-- Central bridge: on normalized inputs, BusinessDaysUntil depends only on the
two calendar day numbers, whatever the two locations are — the offset-alignment
step cancels both offsets. -/
theorem BusinessDaysUntil_mkDate (A B : Location) (D T : Int) :
    BusinessDaysUntil (mkDate A D) (mkDate B T) = dayCount D T := by
  have halign : alignedUntil (mkDate A D) (mkDate B T)
      = T * nsPerDay + 6 * nsPerHour - A.offsetSec * nsPerSec := by
    simp only [alignedUntil, mkDate, nsPerDay, nsPerHour, nsPerSec]
    ring
  rw [BusinessDaysUntil, halign, businessDaysLoop_eq_dayCount]

theorem isCivil_elim (d : Date) (h : isCivil d) : ∃ A D, d = mkDate A D :=
  ⟨d.loc, localDay d, (isCivil_iff d).1 h⟩

theorem dayCount_step_at (c c2 T : Int) (h : c < T) (ha : advanceDay c = c2) :
    dayCount c T = dayCount c2 T + 1 := by
  rw [dayCount_step c T h, ha]

/-- The counting loop from a Monday, on day numbers: same day 0, next day 1,
two days later 2. -/
theorem dayCount_monday (M : Int) (h : (M + 4) % 7 = 1) :
    dayCount M M = 0 ∧ dayCount M (M + 1) = 1 ∧ dayCount M (M + 2) = 2 := by
  have a0 : advanceDay M = M + 1 := by rw [advanceDay_eq]; split_ifs <;> omega
  have a1 : advanceDay (M + 1) = M + 2 := by rw [advanceDay_eq]; split_ifs <;> omega
  refine ⟨dayCount_stop M M (by omega), ?_, ?_⟩
  · have s0 := dayCount_step_at M (M + 1) (M + 1) (by omega) a0
    have s1 := dayCount_stop (M + 1) (M + 1) (by omega)
    omega
  · have s0 := dayCount_step_at M (M + 1) (M + 2) (by omega) a0
    have s1 := dayCount_step_at (M + 1) (M + 2) (M + 2) (by omega) a1
    have s2 := dayCount_stop (M + 2) (M + 2) (by omega)
    omega

/-- The counting loop from a Friday, on day numbers: same day 0, then 1 for the
Saturday, Sunday and Monday following, 2 for the Tuesday, 5 for the next
Friday, 10 for the Friday after that. -/
theorem dayCount_friday (F : Int) (h : (F + 4) % 7 = 5) :
    dayCount F F = 0 ∧ dayCount F (F + 1) = 1 ∧ dayCount F (F + 2) = 1 ∧
    dayCount F (F + 3) = 1 ∧ dayCount F (F + 4) = 2 ∧ dayCount F (F + 7) = 5 ∧
    dayCount F (F + 14) = 10 := by
  have a0 : advanceDay F = F + 3 := by rw [advanceDay_eq, if_pos h]
  have a3 : advanceDay (F + 3) = F + 4 := by rw [advanceDay_eq]; split_ifs <;> omega
  have a4 : advanceDay (F + 4) = F + 5 := by rw [advanceDay_eq]; split_ifs <;> omega
  have a5 : advanceDay (F + 5) = F + 6 := by rw [advanceDay_eq]; split_ifs <;> omega
  have a6 : advanceDay (F + 6) = F + 7 := by rw [advanceDay_eq]; split_ifs <;> omega
  have a7 : advanceDay (F + 7) = F + 10 := by rw [advanceDay_eq]; split_ifs <;> omega
  have a10 : advanceDay (F + 10) = F + 11 := by rw [advanceDay_eq]; split_ifs <;> omega
  have a11 : advanceDay (F + 11) = F + 12 := by rw [advanceDay_eq]; split_ifs <;> omega
  have a12 : advanceDay (F + 12) = F + 13 := by rw [advanceDay_eq]; split_ifs <;> omega
  have a13 : advanceDay (F + 13) = F + 14 := by rw [advanceDay_eq]; split_ifs <;> omega
  refine ⟨dayCount_stop F F (by omega), ?_, ?_, ?_, ?_, ?_, ?_⟩
  · have s0 := dayCount_step_at F (F + 3) (F + 1) (by omega) a0
    have s1 := dayCount_stop (F + 3) (F + 1) (by omega)
    omega
  · have s0 := dayCount_step_at F (F + 3) (F + 2) (by omega) a0
    have s1 := dayCount_stop (F + 3) (F + 2) (by omega)
    omega
  · have s0 := dayCount_step_at F (F + 3) (F + 3) (by omega) a0
    have s1 := dayCount_stop (F + 3) (F + 3) (by omega)
    omega
  · have s0 := dayCount_step_at F (F + 3) (F + 4) (by omega) a0
    have s1 := dayCount_step_at (F + 3) (F + 4) (F + 4) (by omega) a3
    have s2 := dayCount_stop (F + 4) (F + 4) (by omega)
    omega
  · have s0 := dayCount_step_at F (F + 3) (F + 7) (by omega) a0
    have s1 := dayCount_step_at (F + 3) (F + 4) (F + 7) (by omega) a3
    have s2 := dayCount_step_at (F + 4) (F + 5) (F + 7) (by omega) a4
    have s3 := dayCount_step_at (F + 5) (F + 6) (F + 7) (by omega) a5
    have s4 := dayCount_step_at (F + 6) (F + 7) (F + 7) (by omega) a6
    have s5 := dayCount_stop (F + 7) (F + 7) (by omega)
    omega
  · have s0 := dayCount_step_at F (F + 3) (F + 14) (by omega) a0
    have s1 := dayCount_step_at (F + 3) (F + 4) (F + 14) (by omega) a3
    have s2 := dayCount_step_at (F + 4) (F + 5) (F + 14) (by omega) a4
    have s3 := dayCount_step_at (F + 5) (F + 6) (F + 14) (by omega) a5
    have s4 := dayCount_step_at (F + 6) (F + 7) (F + 14) (by omega) a6
    have s5 := dayCount_step_at (F + 7) (F + 10) (F + 14) (by omega) a7
    have s6 := dayCount_step_at (F + 10) (F + 11) (F + 14) (by omega) a10
    have s7 := dayCount_step_at (F + 11) (F + 12) (F + 14) (by omega) a11
    have s8 := dayCount_step_at (F + 12) (F + 13) (F + 14) (by omega) a12
    have s9 := dayCount_step_at (F + 13) (F + 14) (F + 14) (by omega) a13
    have s10 := dayCount_stop (F + 14) (F + 14) (by omega)
    omega

/-- The counting loop from a Saturday to the Monday two days later counts one
step, on day numbers. -/
theorem dayCount_saturday (S : Int) (h : (S + 4) % 7 = 6) :
    dayCount S (S + 2) = 1 := by
  have a0 : advanceDay S = S + 2 := by rw [advanceDay_eq]; split_ifs <;> omega
  have s0 := dayCount_step_at S (S + 2) (S + 2) (by omega) a0
  have s1 := dayCount_stop (S + 2) (S + 2) (by omega)
  omega

/-- C1: for every pair of normalized CivilDates start and until carrying
different timezones, BusinessDaysUntil(start, until) equals the same
computation with both dates expressed in one shared timezone (start's), and in
particular a start at 14:00 in UTC-5 against an until at 15:00 the next
calendar day in UTC-6 yields 1. -/
theorem C1_cross_timezone_equivalence :
    (∀ (A B : Location) (D T : Int),
        BusinessDaysUntil (mkDate A D) (mkDate B T)
          = BusinessDaysUntil (mkDate A D) (mkDate A T)) ∧
    BusinessDaysUntil (DateOf (timeDate 2018 11 5 14 0 0 0 ⟨-18000⟩))
        (DateOf (timeDate 2018 11 6 15 0 0 0 ⟨-21600⟩)) = 1 := by
  constructor
  · intro A B D T
    rw [BusinessDaysUntil_mkDate, BusinessDaysUntil_mkDate]
  · have h1 : DateOf (timeDate 2018 11 5 14 0 0 0 ⟨-18000⟩) = mkDate ⟨-18000⟩ 17840 := by
      decide
    have h2 : DateOf (timeDate 2018 11 6 15 0 0 0 ⟨-21600⟩) = mkDate ⟨-21600⟩ 17841 := by
      decide
    rw [h1, h2, BusinessDaysUntil_mkDate]
    have hm := (dayCount_monday 17840 (by decide)).2.1
    norm_num at hm
    exact hm

/-- C2: for normalized same-timezone inputs the spec's table holds: from a
Monday to the same Monday 0, to Tuesday 1, to Wednesday 2; from a Friday to
the same Friday 0, to Saturday 1, to Sunday 1, to Monday 1, to Tuesday 2, to
the Friday 7 days later 5 and to the Friday 14 days later 10. -/
theorem C2_weekday_table (A : Location) (M F : Int)
    (hM : weekday (mkDate A M) = 1) (hF : weekday (mkDate A F) = 5) :
    BusinessDaysUntil (mkDate A M) (mkDate A M) = 0 ∧
    BusinessDaysUntil (mkDate A M) (mkDate A (M + 1)) = 1 ∧
    BusinessDaysUntil (mkDate A M) (mkDate A (M + 2)) = 2 ∧
    BusinessDaysUntil (mkDate A F) (mkDate A F) = 0 ∧
    BusinessDaysUntil (mkDate A F) (mkDate A (F + 1)) = 1 ∧
    BusinessDaysUntil (mkDate A F) (mkDate A (F + 2)) = 1 ∧
    BusinessDaysUntil (mkDate A F) (mkDate A (F + 3)) = 1 ∧
    BusinessDaysUntil (mkDate A F) (mkDate A (F + 4)) = 2 ∧
    BusinessDaysUntil (mkDate A F) (mkDate A (F + 7)) = 5 ∧
    BusinessDaysUntil (mkDate A F) (mkDate A (F + 14)) = 10 := by
  rw [weekday_mkDate] at hM hF
  simp only [BusinessDaysUntil_mkDate]
  obtain ⟨m0, m1, m2⟩ := dayCount_monday M hM
  obtain ⟨f0, f1, f2, f3, f4, f7, f14⟩ := dayCount_friday F hF
  exact ⟨m0, m1, m2, f0, f1, f2, f3, f4, f7, f14⟩

/-- Witness for C2 at the dates of the repository's tests: Monday 2018-11-05
and Friday 2018-11-02 in the America/Chicago standard offset UTC-6. -/
theorem C2_weekday_table_witness :
    weekday (mkDate ⟨-21600⟩ 17840) = 1 ∧ weekday (mkDate ⟨-21600⟩ 17837) = 5 ∧
    BusinessDaysUntil (mkDate ⟨-21600⟩ 17837) (mkDate ⟨-21600⟩ (17837 + 14)) = 10 :=
  ⟨by decide, by decide,
    (C2_weekday_table ⟨-21600⟩ 17840 17837 (by decide) (by decide)).2.2.2.2.2.2.2.2.2⟩

/-- C3: BusinessDaysUntil of a date with itself is 0; whenever the aligned
until instant is not strictly after start, the result is 0; and the result is
never negative. -/
theorem C3_not_after_gives_zero :
    (∀ d : Date, BusinessDaysUntil d d = 0) ∧
    (∀ s u : Date,
        (alignedUntil s u ≤ s.unixNano → BusinessDaysUntil s u = 0) ∧
        0 ≤ BusinessDaysUntil s u) := by
  constructor
  · intro d
    rw [BusinessDaysUntil]
    apply businessDaysLoop_stop
    simp [alignedUntil]
  · intro s u
    refine ⟨fun h => ?_, businessDaysLoop_nonneg _ _⟩
    rw [BusinessDaysUntil]
    exact businessDaysLoop_stop _ _ (by omega)

/-- Witness for C3: an until one day before start, same timezone. -/
theorem C3_not_after_gives_zero_witness :
    alignedUntil (mkDate ⟨0⟩ 17840) (mkDate ⟨0⟩ 17839) ≤ (mkDate ⟨0⟩ 17840).unixNano ∧
    BusinessDaysUntil (mkDate ⟨0⟩ 17840) (mkDate ⟨0⟩ 17839) = 0 :=
  ⟨by decide,
    (C3_not_after_gives_zero.2 (mkDate ⟨0⟩ 17840) (mkDate ⟨0⟩ 17839)).1 (by decide)⟩

/-- C4: BusinessDaysUntil is total: the cursor's instant strictly increases on
every iteration of the loop, the loop is a well-defined total function
satisfying its defining while-loop equation, and a result is always returned. -/
theorem C4_loop_terminates :
    (∀ d : Date, d.unixNano < (advance d).unixNano) ∧
    (∀ (u : Int) (d : Date),
        businessDaysLoop u d
          = if d.unixNano < u then businessDaysLoop u (advance d) + 1 else 0) ∧
    (∀ s u : Date, ∃ n : Int, BusinessDaysUntil s u = n) := by
  refine ⟨advance_unixNano_lt, fun u d => ?_, fun s u => ⟨_, rfl⟩⟩
  by_cases h : d.unixNano < u
  · rw [businessDaysLoop_step _ _ h, if_pos h]
  · rw [businessDaysLoop_stop _ _ h, if_neg h]

/-- C5: for every CivilDate d, NextDate d keeps d's timezone, is exactly one
calendar day later in the local calendar, is strictly later as an instant, is
a distinct date, and is again a CivilDate. -/
theorem C5_NextDate_one_day (d : Date) (h : isCivil d) :
    localDay (NextDate d) = localDay d + 1 ∧
    (NextDate d).loc = d.loc ∧
    d.unixNano < (NextDate d).unixNano ∧
    NextDate d ≠ d ∧
    isCivil (NextDate d) := by
  obtain ⟨A, D, rfl⟩ := isCivil_elim d h
  rw [NextDate_mkDate]
  refine ⟨?_, rfl, ?_, ?_, isCivil_mkDate _ _⟩
  · rw [localDay_mkDate, localDay_mkDate]
  · simp only [mkDate, nsPerDay, nsPerHour, nsPerSec]
    omega
  · intro hc
    have := congrArg Time.unixNano hc
    simp only [mkDate, nsPerDay, nsPerHour, nsPerSec] at this
    omega

/-- Witness for C5 at Monday 2018-11-05 in UTC-6. -/
theorem C5_NextDate_one_day_witness :
    isCivil (mkDate ⟨-21600⟩ 17840) ∧
    localDay (NextDate (mkDate ⟨-21600⟩ 17840)) = localDay (mkDate ⟨-21600⟩ 17840) + 1 :=
  ⟨by decide, (C5_NextDate_one_day (mkDate ⟨-21600⟩ 17840) (by decide)).1⟩

/-- C6: DateOf preserves the instant's local year, month, day and its
location, and anchors the clock at 06:00:00.000000000 local time. -/
theorem C6_DateOf_preserves_date (t : Time) :
    yearOf (DateOf t) = yearOf t ∧ monthOf (DateOf t) = monthOf t ∧
    dayOf (DateOf t) = dayOf t ∧ (DateOf t).loc = t.loc ∧
    hourOf (DateOf t) = 6 ∧ minuteOf (DateOf t) = 0 ∧
    secondOf (DateOf t) = 0 ∧ nanosecondOf (DateOf t) = 0 := by
  have hday := localDay_DateOf t
  refine ⟨?_, ?_, ?_, rfl, ?_, ?_, ?_, ?_⟩
  · unfold yearOf
    rw [hday]
  · unfold monthOf
    rw [hday]
  · unfold dayOf
    rw [hday]
  · simp only [hourOf, DateOf, localClock, localDay, nsPerDay, nsPerHour, nsPerSec]
    omega
  · simp only [minuteOf, DateOf, localClock, localDay, nsPerDay, nsPerHour, nsPerMin, nsPerSec]
    omega
  · simp only [secondOf, DateOf, localClock, localDay, nsPerDay, nsPerHour, nsPerMin, nsPerSec]
    omega
  · simp only [nanosecondOf, DateOf, localClock, localDay, nsPerDay, nsPerHour, nsPerSec]
    omega

/-- C7: from any CivilDate, the advanced cursor of the BusinessDaysUntil loop
is again a CivilDate and its weekday is Monday through Friday, never Saturday
or Sunday — so every loop-condition evaluation after the first iteration sees
a weekday cursor. -/
theorem C7_cursor_lands_on_weekday (d : Date) (h : isCivil d) :
    isCivil (advance d) ∧ 1 ≤ weekday (advance d) ∧ weekday (advance d) ≤ 5 := by
  obtain ⟨A, D, rfl⟩ := isCivil_elim d h
  rw [advance_mkDate]
  refine ⟨isCivil_mkDate _ _, ?_, ?_⟩ <;>
    rw [weekday_mkDate, advanceDay_eq] <;> split_ifs <;> omega

/-- Witness for C7 at Friday 2018-11-02 in UTC-6: the advance jumps the
weekend. -/
theorem C7_cursor_lands_on_weekday_witness :
    isCivil (mkDate ⟨-21600⟩ 17837) ∧ 1 ≤ weekday (advance (mkDate ⟨-21600⟩ 17837)) :=
  ⟨by decide, (C7_cursor_lands_on_weekday (mkDate ⟨-21600⟩ 17837) (by decide)).2.1⟩

/-- C8: DateOf is idempotent: normalizing a normalized value changes nothing. -/
theorem C8_DateOf_idempotent (t : Time) : DateOf (DateOf t) = DateOf t :=
  isCivil_mkDate t.loc (localDay t)

/-- C9: with start normalized and two normalized untils in one shared
timezone, BusinessDaysUntil is monotone in the until's calendar date. -/
theorem C9_monotone_in_until (A B : Location) (D T1 T2 : Int)
    (h : localDay (mkDate B T1) ≤ localDay (mkDate B T2)) :
    BusinessDaysUntil (mkDate A D) (mkDate B T1)
      ≤ BusinessDaysUntil (mkDate A D) (mkDate B T2) := by
  rw [localDay_mkDate, localDay_mkDate] at h
  rw [BusinessDaysUntil_mkDate, BusinessDaysUntil_mkDate]
  exact dayCount_mono D T1 T2 h

/-- Witness for C9: Friday 2018-11-02 to Saturday versus to the next Friday. -/
theorem C9_monotone_in_until_witness :
    localDay (mkDate ⟨0⟩ 17838) ≤ localDay (mkDate ⟨0⟩ 17844) ∧
    BusinessDaysUntil (mkDate ⟨-21600⟩ 17837) (mkDate ⟨0⟩ 17838)
      ≤ BusinessDaysUntil (mkDate ⟨-21600⟩ 17837) (mkDate ⟨0⟩ 17844) :=
  ⟨by decide, C9_monotone_in_until ⟨-21600⟩ ⟨0⟩ 17837 17838 17844 (by decide)⟩

/-- C10: a normalized start on a Saturday with until the immediately following
Monday in the same timezone still yields a defined value, namely 1, although
no business day lies strictly between them. -/
theorem C10_saturday_start (A : Location) (D : Int)
    (h : weekday (mkDate A D) = 6) :
    BusinessDaysUntil (mkDate A D) (mkDate A (D + 2)) = 1 := by
  rw [weekday_mkDate] at h
  rw [BusinessDaysUntil_mkDate]
  exact dayCount_saturday D h

/-- Witness for C10 at Saturday 2018-11-03 in UTC-6. -/
theorem C10_saturday_start_witness :
    weekday (mkDate ⟨-21600⟩ 17838) = 6 ∧
    BusinessDaysUntil (mkDate ⟨-21600⟩ 17838) (mkDate ⟨-21600⟩ (17838 + 2)) = 1 :=
  ⟨by decide, C10_saturday_start ⟨-21600⟩ 17838 (by decide)⟩

end JiraAnalysis
